import Mathlib

/-!  Verification of the `walletb` HD-wallet address-derivation pipeline.

The program (src/main.rs) derives P2PKH addresses `m/0/i` from an extended
public key (xpub) string.  The cryptographic primitives and BIP32 operations
live in external crates (`base58`, `bitcoin`); following the specification
(spec.md §4.1-§4.5) they are modelled here explicitly, while the glue code of
`decode_xpub`, `derive_addresses` and `build_derivation_path` is embedded
from the source.  Bytes are `Nat` values below 256, byte strings are
`List Nat`, machine words are `Nat` reduced modulo the word size. -/

set_option maxRecDepth 1000000
set_option maxHeartbeats 2000000

namespace WalletB

/-- Big-endian bytes of `n`, exactly `len` bytes (truncating above). -/
def natToBytesBEAux : Nat → Nat → List Nat → List Nat
  | 0, _, acc => acc
  | k+1, n, acc => natToBytesBEAux k (n / 256) (n % 256 :: acc)

/-- Big-endian fixed-width byte encoding. -/
def natToBytesBE (len n : Nat) : List Nat := natToBytesBEAux len n []

/-- Big-endian interpretation of a byte string as a natural number. -/
def bytesToNatBE (bs : List Nat) : Nat := bs.foldl (fun a b => a * 256 + b) 0

/-- Minimal big-endian byte encoding (no leading zero bytes); `fuel` bounds
the number of produced bytes. -/
def natToBytesMinAux : Nat → Nat → List Nat → List Nat
  | 0, _, acc => acc
  | f+1, n, acc => if n = 0 then acc else natToBytesMinAux f (n / 256) (n % 256 :: acc)

/-- Split a byte string into blocks of `sz` bytes (`fuel` bounds recursion). -/
def chunksAux (sz : Nat) : Nat → List Nat → List (List Nat)
  | 0, _ => []
  | _+1, [] => []
  | f+1, l => l.take sz :: chunksAux sz f (l.drop sz)

/-- Modular exponentiation by squaring, fuelled by the bit length of the
exponent. -/
def powModAux : Nat → Nat → Nat → Nat → Nat
  | 0, _, _, m => 1 % m
  | f+1, b, e, m =>
    if e = 0 then 1 % m
    else
      let h := powModAux f ((b * b) % m) (e / 2) m
      if e % 2 = 1 then (b * h) % m else h

/-- `powMod b e m = b ^ e % m`, for exponents below `2 ^ 520`. -/
def powMod (b e m : Nat) : Nat := powModAux 520 (b % m) e m

/-- State of the SHA-256 / SHA-512 compression functions: eight words. -/
structure Words8 where
  a : Nat
  b : Nat
  c : Nat
  d : Nat
  e : Nat
  f : Nat
  g : Nat
  h : Nat
deriving Repr, DecidableEq

/-- The eight 32-bit words of a `Words8`, in order. -/
def Words8.toList (s : Words8) : List Nat := [s.a, s.b, s.c, s.d, s.e, s.f, s.g, s.h]

/-- 32-bit rotate right. -/
def rotr32 (s x : Nat) : Nat := ((x >>> s) ||| (x <<< (32 - s))) % 0x100000000

/-- Bitwise complement on 32 bits. -/
def not32 (x : Nat) : Nat := x ^^^ 0xFFFFFFFF

/-- SHA-256 round constants (FIPS 180-4). -/
def sha256K : List Nat := [1116352408, 1899447441, 3049323471, 3921009573, 961987163, 1508970993,
  2453635748, 2870763221, 3624381080, 310598401, 607225278, 1426881987,
  1925078388, 2162078206, 2614888103, 3248222580, 3835390401, 4022224774,
  264347078, 604807628, 770255983, 1249150122, 1555081692, 1996064986,
  2554220882, 2821834349, 2952996808, 3210313671, 3336571891, 3584528711,
  113926993, 338241895, 666307205, 773529912, 1294757372, 1396182291,
  1695183700, 1986661051, 2177026350, 2456956037, 2730485921, 2820302411,
  3259730800, 3345764771, 3516065817, 3600352804, 4094571909, 275423344,
  430227734, 506948616, 659060556, 883997877, 958139571, 1322822218,
  1537002063, 1747873779, 1955562222, 2024104815, 2227730452, 2361852424,
  2428436474, 2756734187, 3204031479, 3329325298]

/-- SHA-256 initial hash value. -/
def sha256H0 : Words8 :=
  ⟨1779033703, 3144134277, 1013904242, 2773480762,
   1359893119, 2600822924, 528734635, 1541459225⟩

/-- Group bytes into big-endian 32-bit words. -/
def bytesToWords32BE : List Nat → List Nat
  | b0 :: b1 :: b2 :: b3 :: t =>
    (((b0 * 256 + b1) * 256 + b2) * 256 + b3) :: bytesToWords32BE t
  | _ => []

/-- Extend the 16-word block to the 64-word SHA-256 message schedule. -/
def sha256ExtendAux : Nat → List Nat → List Nat
  | 0, w => w
  | f+1, w =>
    let n := w.length
    let s0 :=
      let x := w.getD (n - 15) 0
      rotr32 7 x ^^^ rotr32 18 x ^^^ (x >>> 3)
    let s1 :=
      let x := w.getD (n - 2) 0
      rotr32 17 x ^^^ rotr32 19 x ^^^ (x >>> 10)
    sha256ExtendAux f (w ++ [(w.getD (n - 16) 0 + s0 + w.getD (n - 7) 0 + s1) % 0x100000000])

/-- One SHA-256 compression round. -/
def sha256Round (st : Words8) (kw : Nat × Nat) : Words8 :=
  let S1 := rotr32 6 st.e ^^^ rotr32 11 st.e ^^^ rotr32 25 st.e
  let ch := (st.e &&& st.f) ^^^ (not32 st.e &&& st.g)
  let t1 := (st.h + S1 + ch + kw.1 + kw.2) % 0x100000000
  let S0 := rotr32 2 st.a ^^^ rotr32 13 st.a ^^^ rotr32 22 st.a
  let mj := (st.a &&& st.b) ^^^ (st.a &&& st.c) ^^^ (st.b &&& st.c)
  let t2 := (S0 + mj) % 0x100000000
  ⟨(t1 + t2) % 0x100000000, st.a, st.b, st.c, (st.d + t1) % 0x100000000, st.e, st.f, st.g⟩

/-- Compress one 64-byte block into the running SHA-256 state. -/
def sha256Compress (st : Words8) (block : List Nat) : Words8 :=
  let w := sha256ExtendAux 48 (bytesToWords32BE block)
  let r := (sha256K.zip w).foldl sha256Round st
  ⟨(st.a + r.a) % 0x100000000, (st.b + r.b) % 0x100000000,
   (st.c + r.c) % 0x100000000, (st.d + r.d) % 0x100000000,
   (st.e + r.e) % 0x100000000, (st.f + r.f) % 0x100000000,
   (st.g + r.g) % 0x100000000, (st.h + r.h) % 0x100000000⟩

/-- SHA-256 padding: `0x80`, zeros, and the 64-bit big-endian bit length. -/
def sha256Pad (msg : List Nat) : List Nat :=
  let L := msg.length
  msg ++ [0x80] ++ List.replicate ((64 - ((L + 9) % 64)) % 64) 0 ++ natToBytesBE 8 (8 * L)

/-- SHA-256 of a byte string, as 32 bytes. -/
def sha256 (msg : List Nat) : List Nat :=
  let padded := sha256Pad msg
  let st := (chunksAux 64 (padded.length) padded).foldl sha256Compress sha256H0
  (st.toList.map (natToBytesBE 4)).flatten

/-- Double SHA-256. -/
def sha256d (msg : List Nat) : List Nat := sha256 (sha256 msg)

/-- Byte string of an ASCII string. -/
def strBytes (s : String) : List Nat := s.toList.map Char.toNat

/-- 64-bit rotate right. -/
def rotr64 (s x : Nat) : Nat := ((x >>> s) ||| (x <<< (64 - s))) % 0x10000000000000000

/-- SHA-512 round constants (FIPS 180-4). -/
def sha512K : List Nat := [4794697086780616226, 8158064640168781261, 13096744586834688815, 16840607885511220156,
  4131703408338449720, 6480981068601479193, 10538285296894168987, 12329834152419229976,
  15566598209576043074, 1334009975649890238, 2608012711638119052, 6128411473006802146,
  8268148722764581231, 9286055187155687089, 11230858885718282805, 13951009754708518548,
  16472876342353939154, 17275323862435702243, 1135362057144423861, 2597628984639134821,
  3308224258029322869, 5365058923640841347, 6679025012923562964, 8573033837759648693,
  10970295158949994411, 12119686244451234320, 12683024718118986047, 13788192230050041572,
  14330467153632333762, 15395433587784984357, 489312712824947311, 1452737877330783856,
  2861767655752347644, 3322285676063803686, 5560940570517711597, 5996557281743188959,
  7280758554555802590, 8532644243296465576, 9350256976987008742, 10552545826968843579,
  11727347734174303076, 12113106623233404929, 14000437183269869457, 14369950271660146224,
  15101387698204529176, 15463397548674623760, 17586052441742319658, 1182934255886127544,
  1847814050463011016, 2177327727835720531, 2830643537854262169, 3796741975233480872,
  4115178125766777443, 5681478168544905931, 6601373596472566643, 7507060721942968483,
  8399075790359081724, 8693463985226723168, 9568029438360202098, 10144078919501101548,
  10430055236837252648, 11840083180663258601, 13761210420658862357, 14299343276471374635,
  14566680578165727644, 15097957966210449927, 16922976911328602910, 17689382322260857208,
  500013540394364858, 748580250866718886, 1242879168328830382, 1977374033974150939,
  2944078676154940804, 3659926193048069267, 4368137639120453308, 4836135668995329356,
  5532061633213252278, 6448918945643986474, 6902733635092675308, 7801388544844847127]

/-- SHA-512 initial hash value. -/
def sha512H0 : Words8 :=
  ⟨7640891576956012808, 13503953896175478587, 4354685564936845355, 11912009170470909681,
   5840696475078001361, 11170449401992604703, 2270897969802886507, 6620516959819538809⟩

/-- Group bytes into big-endian 64-bit words. -/
def bytesToWords64BE : List Nat → List Nat
  | b0 :: b1 :: b2 :: b3 :: b4 :: b5 :: b6 :: b7 :: t =>
    (((((((b0 * 256 + b1) * 256 + b2) * 256 + b3) * 256 + b4) * 256 + b5) * 256
        + b6) * 256 + b7) :: bytesToWords64BE t
  | _ => []

/-- Extend the 16-word block to the 80-word SHA-512 message schedule. -/
def sha512ExtendAux : Nat → List Nat → List Nat
  | 0, w => w
  | f+1, w =>
    let n := w.length
    let s0 :=
      let x := w.getD (n - 15) 0
      rotr64 1 x ^^^ rotr64 8 x ^^^ (x >>> 7)
    let s1 :=
      let x := w.getD (n - 2) 0
      rotr64 19 x ^^^ rotr64 61 x ^^^ (x >>> 6)
    sha512ExtendAux f
      (w ++ [(w.getD (n - 16) 0 + s0 + w.getD (n - 7) 0 + s1) % 0x10000000000000000])

/-- One SHA-512 compression round. -/
def sha512Round (st : Words8) (kw : Nat × Nat) : Words8 :=
  let S1 := rotr64 14 st.e ^^^ rotr64 18 st.e ^^^ rotr64 41 st.e
  let ch := (st.e &&& st.f) ^^^ ((st.e ^^^ 0xFFFFFFFFFFFFFFFF) &&& st.g)
  let t1 := (st.h + S1 + ch + kw.1 + kw.2) % 0x10000000000000000
  let S0 := rotr64 28 st.a ^^^ rotr64 34 st.a ^^^ rotr64 39 st.a
  let mj := (st.a &&& st.b) ^^^ (st.a &&& st.c) ^^^ (st.b &&& st.c)
  let t2 := (S0 + mj) % 0x10000000000000000
  ⟨(t1 + t2) % 0x10000000000000000, st.a, st.b, st.c,
   (st.d + t1) % 0x10000000000000000, st.e, st.f, st.g⟩

/-- Compress one 128-byte block into the running SHA-512 state. -/
def sha512Compress (st : Words8) (block : List Nat) : Words8 :=
  let w := sha512ExtendAux 64 (bytesToWords64BE block)
  let r := (sha512K.zip w).foldl sha512Round st
  ⟨(st.a + r.a) % 0x10000000000000000, (st.b + r.b) % 0x10000000000000000,
   (st.c + r.c) % 0x10000000000000000, (st.d + r.d) % 0x10000000000000000,
   (st.e + r.e) % 0x10000000000000000, (st.f + r.f) % 0x10000000000000000,
   (st.g + r.g) % 0x10000000000000000, (st.h + r.h) % 0x10000000000000000⟩

/-- SHA-512 padding: `0x80`, zeros, and the 128-bit big-endian bit length. -/
def sha512Pad (msg : List Nat) : List Nat :=
  let L := msg.length
  msg ++ [0x80] ++ List.replicate ((128 - ((L + 17) % 128)) % 128) 0
      ++ natToBytesBE 16 (8 * L)

/-- SHA-512 of a byte string, as 64 bytes. -/
def sha512 (msg : List Nat) : List Nat :=
  let padded := sha512Pad msg
  let st := (chunksAux 128 (padded.length) padded).foldl sha512Compress sha512H0
  (st.toList.map (natToBytesBE 8)).flatten

/-- HMAC-SHA512 (RFC 2104) for keys of at most 128 bytes, as used by CKDpub
with a 32-byte chain-code key. -/
def hmacSha512 (key msg : List Nat) : List Nat :=
  let kp := key ++ List.replicate (128 - key.length) 0
  sha512 ((kp.map (fun b => b ^^^ 0x5c)) ++ sha512 ((kp.map (fun b => b ^^^ 0x36)) ++ msg))

/-- 32-bit rotate left. -/
def rol32 (s x : Nat) : Nat := ((x <<< s) ||| (x >>> (32 - s))) % 0x100000000

/-- Group bytes into little-endian 32-bit words. -/
def bytesToWords32LE : List Nat → List Nat
  | b0 :: b1 :: b2 :: b3 :: t =>
    (((b3 * 256 + b2) * 256 + b1) * 256 + b0) :: bytesToWords32LE t
  | _ => []

/-- RIPEMD-160 left-line message word order. -/
def ripemdRL : List Nat := [0, 1, 2, 3, 4, 5, 6, 7, 8, 9, 10, 11, 12, 13, 14, 15,
  7, 4, 13, 1, 10, 6, 15, 3, 12, 0, 9, 5, 2, 14, 11, 8,
  3, 10, 14, 4, 9, 15, 8, 1, 2, 7, 0, 6, 13, 11, 5, 12,
  1, 9, 11, 10, 0, 8, 12, 4, 13, 3, 7, 15, 14, 5, 6, 2,
  4, 0, 5, 9, 7, 12, 2, 10, 14, 1, 3, 8, 11, 6, 15, 13]

/-- RIPEMD-160 right-line message word order. -/
def ripemdRR : List Nat := [5, 14, 7, 0, 9, 2, 11, 4, 13, 6, 15, 8, 1, 10, 3, 12,
  6, 11, 3, 7, 0, 13, 5, 10, 14, 15, 8, 12, 4, 9, 1, 2,
  15, 5, 1, 3, 7, 14, 6, 9, 11, 8, 12, 2, 10, 0, 4, 13,
  8, 6, 4, 1, 3, 11, 15, 0, 5, 12, 2, 13, 9, 7, 10, 14,
  12, 15, 10, 4, 1, 5, 8, 7, 6, 2, 13, 14, 0, 3, 9, 11]

/-- RIPEMD-160 left-line rotation amounts. -/
def ripemdSL : List Nat := [11, 14, 15, 12, 5, 8, 7, 9, 11, 13, 14, 15, 6, 7, 9, 8,
  7, 6, 8, 13, 11, 9, 7, 15, 7, 12, 15, 9, 11, 7, 13, 12,
  11, 13, 6, 7, 14, 9, 13, 15, 14, 8, 13, 6, 5, 12, 7, 5,
  11, 12, 14, 15, 14, 15, 9, 8, 9, 14, 5, 6, 8, 6, 5, 12,
  9, 15, 5, 11, 6, 8, 13, 12, 5, 12, 13, 14, 11, 8, 5, 6]

/-- RIPEMD-160 right-line rotation amounts. -/
def ripemdSR : List Nat := [8, 9, 9, 11, 13, 15, 15, 5, 7, 7, 8, 11, 14, 14, 12, 6,
  9, 13, 15, 7, 12, 8, 9, 11, 7, 7, 12, 7, 6, 15, 13, 11,
  9, 7, 15, 11, 8, 6, 6, 14, 12, 13, 5, 14, 13, 13, 7, 5,
  15, 5, 8, 11, 14, 14, 6, 14, 6, 9, 12, 9, 12, 5, 15, 8,
  8, 5, 12, 9, 12, 5, 14, 6, 8, 13, 6, 5, 15, 13, 11, 11]

/-- The five RIPEMD-160 boolean functions, selected by round number. -/
def ripemdF (j x y z : Nat) : Nat :=
  if j < 16 then x ^^^ y ^^^ z
  else if j < 32 then (x &&& y) ||| (not32 x &&& z)
  else if j < 48 then (x ||| not32 y) ^^^ z
  else if j < 64 then (x &&& z) ||| (y &&& not32 z)
  else x ^^^ (y ||| not32 z)

/-- RIPEMD-160 left-line round constants. -/
def ripemdKL (j : Nat) : Nat :=
  if j < 16 then 0 else if j < 32 then 0x5A827999
  else if j < 48 then 0x6ED9EBA1 else if j < 64 then 0x8F1BBCDC else 0xA953FD4E

/-- RIPEMD-160 right-line round constants. -/
def ripemdKR (j : Nat) : Nat :=
  if j < 16 then 0x50A28BE6 else if j < 32 then 0x5C4DD124
  else if j < 48 then 0x6D703EF3 else if j < 64 then 0x7A6D76E9 else 0

/-- One RIPEMD-160 step on one line: state `(A, B, C, D, E)`; `fsel` selects
the boolean function index (`j` on the left line, `79 - j` on the right). -/
def ripemdStep (x : List Nat) (ro so : List Nat) (k fsel : Nat → Nat)
    (st : Nat × Nat × Nat × Nat × Nat) (j : Nat) : Nat × Nat × Nat × Nat × Nat :=
  let (A, B, C, D, E) := st
  let t := (rol32 (so.getD j 0)
      ((A + ripemdF (fsel j) B C D + x.getD (ro.getD j 0) 0 + k j) % 0x100000000) + E)
      % 0x100000000
  (E, t, B, rol32 10 C, D)

/-- Compress one 64-byte block into the running RIPEMD-160 state. -/
def ripemdCompress (h : List Nat) (block : List Nat) : List Nat :=
  let x := bytesToWords32LE block
  let init := (h.getD 0 0, h.getD 1 0, h.getD 2 0, h.getD 3 0, h.getD 4 0)
  let (al, bl, cl, dl, el) := (List.range 80).foldl
    (ripemdStep x ripemdRL ripemdSL ripemdKL (fun j => j)) init
  let (ar, br, cr, dr, er) := (List.range 80).foldl
    (ripemdStep x ripemdRR ripemdSR ripemdKR (fun j => 79 - j)) init
  [(h.getD 1 0 + cl + dr) % 0x100000000,
   (h.getD 2 0 + dl + er) % 0x100000000,
   (h.getD 3 0 + el + ar) % 0x100000000,
   (h.getD 4 0 + al + br) % 0x100000000,
   (h.getD 0 0 + bl + cr) % 0x100000000]

/-- RIPEMD-160 padding: like SHA-256 but with a little-endian bit length. -/
def ripemdPad (msg : List Nat) : List Nat :=
  let L := msg.length
  msg ++ [0x80] ++ List.replicate ((64 - ((L + 9) % 64)) % 64) 0
      ++ (natToBytesBE 8 (8 * L)).reverse

/-- RIPEMD-160 of a byte string, as 20 bytes (little-endian words). -/
def ripemd160 (msg : List Nat) : List Nat :=
  let padded := ripemdPad msg
  let h := (chunksAux 64 (padded.length) padded).foldl ripemdCompress
    [0x67452301, 0xEFCDAB89, 0x98BADCFE, 0x10325476, 0xC3D2E1F0]
  (h.map (fun w => (natToBytesBE 4 w).reverse)).flatten

/-- HASH160: RIPEMD-160 of SHA-256, used for address payloads and parent
fingerprints. -/
def hash160 (msg : List Nat) : List Nat := ripemd160 (sha256 msg)

/-! ### secp256k1 point arithmetic

The curve is `y^2 = x^3 + 7` over the prime field of order `secpP`;
`secpN` is the group order, `(secpGx, secpGy)` the generator.
Points are computed in Jacobian coordinates `(X, Y, Z)` with
`x = X / Z^2`, `y = Y / Z^3`; `Z = 0` encodes the point at infinity. -/

/-- The secp256k1 field prime. -/
def secpP : Nat := 2 ^ 256 - 2 ^ 32 - 977

/-- The secp256k1 group order. -/
def secpN : Nat := 0xFFFFFFFFFFFFFFFFFFFFFFFFFFFFFFFEBAAEDCE6AF48A03BBFD25E8CD0364141

/-- Generator x-coordinate. -/
def secpGx : Nat := 0x79BE667EF9DCBBAC55A06295CE870B07029BFCDB2DCE28D959F2815B16F81798

/-- Generator y-coordinate. -/
def secpGy : Nat := 0x483ADA7726A3C4655DA4FBFC0E1108A8FD17B448A68554199C47D08FFB10D4B8

/-- A point in Jacobian coordinates. -/
structure JPoint where
  x : Nat
  y : Nat
  z : Nat
deriving Repr, DecidableEq

/-- The Jacobian point at infinity. -/
def jInf : JPoint := ⟨1, 1, 0⟩

/-- Jacobian point doubling on `y^2 = x^3 + 7`. -/
def jDouble (P : JPoint) : JPoint :=
  if P.z = 0 then jInf
  else if P.y = 0 then jInf
  else
    let S := (4 * P.x * P.y % secpP * P.y) % secpP
    let M := (3 * P.x % secpP * P.x) % secpP
    let X := (M * M + 2 * secpP * secpP - 2 * S) % secpP
    let Y2 := P.y * P.y % secpP
    let Y := (M * ((S + secpP - X) % secpP) + 8 * secpP * secpP - 8 * (Y2 * Y2 % secpP)) % secpP
    let Z := (2 * P.y * P.z) % secpP
    ⟨X, Y, Z⟩

/-- Mixed addition of a Jacobian point and an affine point `(x2, y2)`. -/
def jAddAffine (P : JPoint) (x2 y2 : Nat) : JPoint :=
  if P.z = 0 then ⟨x2 % secpP, y2 % secpP, 1⟩
  else
    let z1z1 := P.z * P.z % secpP
    let u2 := x2 * z1z1 % secpP
    let s2 := y2 * z1z1 % secpP * P.z % secpP
    if u2 % secpP = P.x % secpP then
      if s2 % secpP = P.y % secpP then jDouble P else jInf
    else
      let h := (u2 + secpP - P.x % secpP) % secpP
      let r := (s2 + secpP - P.y % secpP) % secpP
      let h2 := h * h % secpP
      let h3 := h2 * h % secpP
      let X := (r * r % secpP + 2 * secpP - h3 - 2 * (P.x * h2 % secpP) % secpP) % secpP
      let Y := (r * ((P.x * h2 % secpP + secpP - X) % secpP) % secpP
          + secpP - P.y * h3 % secpP) % secpP
      let Z := P.z * h % secpP
      ⟨X, Y, Z⟩

/-- Scalar multiple `k * (x, y)` of an affine point, most-significant bit
first; `f` counts the remaining bits (256 at the top call). -/
def jScalarAux (k x y : Nat) : Nat → JPoint → JPoint
  | 0, acc => acc
  | f+1, acc =>
    let d := jDouble acc
    jScalarAux k x y f (if (k >>> f) % 2 = 1 then jAddAffine d x y else d)

/-- Scalar multiple `k * G` of the generator, in Jacobian coordinates. -/
def scalarMulG (k : Nat) : JPoint := jScalarAux k secpGx secpGy 256 jInf

/-- Convert a Jacobian point to affine coordinates; `none` is the point at
infinity.  Field inversion is by Fermat exponentiation. -/
def toAffine (P : JPoint) : Option (Nat × Nat) :=
  if P.z % secpP = 0 then none
  else
    let zi := powMod P.z (secpP - 2) secpP
    let zi2 := zi * zi % secpP
    some (P.x * zi2 % secpP, P.y * zi2 % secpP * zi % secpP)

/-- The 33-byte compressed encoding `serP` of an affine point. -/
def serPoint (P : Nat × Nat) : List Nat := (2 + P.2 % 2) :: natToBytesBE 32 P.1

/-- Decompress a 33-byte public key to an affine point: the square root of
`x^3 + 7` with the parity selected by the prefix byte (`0x02` even, `0x03`
odd); `none` when the encoding is not a valid curve point. -/
def decompress (pk : List Nat) : Option (Nat × Nat) :=
  match pk with
  | pb :: rest =>
    if pk.length = 33 ∧ (pb = 2 ∨ pb = 3) then
      let x := bytesToNatBE rest
      if x < secpP then
        let a := (x * x % secpP * x + 7) % secpP
        let y0 := powMod a ((secpP + 1) / 4) secpP
        if y0 * y0 % secpP = a then
          some (x, if y0 % 2 = pb - 2 then y0 else secpP - y0)
        else none
      else none
    else none
  | [] => none

/-! ### Base58Check codec (spec §4.1)

Modelled from the spec: the Base58 string-to-bytes conversion itself lives in
the external `base58` crate (`FromBase58`, used by `decode_xpub`) and the
checksummed framing in the `bitcoin` crate; spec §4.1 specifies the combined
decode: big-endian base-58 integer conversion preserving leading `1` symbols
as zero bytes, then validation of the trailing 4-byte double-SHA-256
checksum, returning the payload without the checksum. -/

/-- The Base58 alphabet (no `0`, `O`, `I`, `l`). -/
def b58Alphabet : List Char := "123456789ABCDEFGHJKLMNPQRSTUVWXYZabcdefghijkmnopqrstuvwxyz".toList

/-- Index of a character in the Base58 alphabet. -/
def b58DigitAux : List Char → Nat → Char → Option Nat
  | [], _, _ => none
  | a :: t, i, c => if c = a then some i else b58DigitAux t (i+1) c

/-- Value of one Base58 symbol, `none` outside the alphabet. -/
def b58Digit (c : Char) : Option Nat := b58DigitAux b58Alphabet 0 c

/-- Error taxonomy of the pipeline (spec §7). -/
inductive Err where
  | invalidCharacter
  | checksumMismatch
  | emptyInput
  | invalidLength
  | unsupportedKeyVersion
  | invalidPublicKey
  | invalidTweak
  | pointAtInfinity
  | hardenedDerivationUnsupported
  | malformedPath
  | panicInvalidDerivationPath
deriving Repr, DecidableEq

/-- Accumulate the big-endian base-58 value of the characters. -/
def b58ValueAux : List Char → Nat → Option Nat
  | [], acc => some acc
  | c :: t, acc =>
    match b58Digit c with
    | none => none
    | some d => b58ValueAux t (acc * 58 + d)

/-- Count of leading `1` symbols (each stands for one leading zero byte). -/
def b58LeadingOnes : List Char → Nat
  | '1' :: t => b58LeadingOnes t + 1
  | _ => 0

/-- Modelled from the spec: raw Base58 decoding of a string to bytes
(spec §4.1) — the conversion performed by the external `base58` crate's
`from_base58`.  Fails with `EmptyInput` on the empty string and
`InvalidCharacter` on a symbol outside the alphabet. -/
def base58Raw (s : String) : Except Err (List Nat) :=
  if s.toList = [] then .error .emptyInput
  else
    match b58ValueAux s.toList 0 with
    | none => .error .invalidCharacter
    | some v =>
      .ok (List.replicate (b58LeadingOnes s.toList) 0
        ++ natToBytesMinAux s.toList.length v [])

/-- First 4 bytes of the double SHA-256 of a payload: the Base58Check
checksum. -/
def checksum4 (payload : List Nat) : List Nat := (sha256d payload).take 4

/-- Modelled from the spec: Base58Check decoding (spec §4.1) — validates the
last 4 decoded bytes against the checksum of the preceding bytes and returns
the payload without them, failing with `ChecksumMismatch` otherwise. -/
def decodeBase58Check (s : String) : Except Err (List Nat) :=
  match base58Raw s with
  | .error e => .error e
  | .ok raw =>
    let payload := raw.take (raw.length - 4)
    if checksum4 payload = raw.drop (raw.length - 4) then .ok payload
    else .error .checksumMismatch

/-- Base58 encoding of a byte string: minimal base-58 digits of its
big-endian value, preceded by one `1` per leading zero byte. -/
def b58CharsAux : Nat → Nat → List Char → List Char
  | 0, _, acc => acc
  | f+1, n, acc =>
    if n = 0 then acc
    else b58CharsAux f (n / 58) (b58Alphabet.getD (n % 58) '1' :: acc)

/-- Count of leading zero bytes. -/
def leadingZeros : List Nat → Nat
  | 0 :: t => leadingZeros t + 1
  | _ => 0

/-- Modelled from the spec: Base58 encoding (spec §4.1, mirror of decode,
with the same leading-zero rule). -/
def base58Encode (bs : List Nat) : String :=
  ⟨List.replicate (leadingZeros bs) '1'
    ++ b58CharsAux (2 * bs.length + 1) (bytesToNatBE bs) []⟩

/-- Modelled from the spec: Base58Check encoding (spec §4.5) — appends the
4-byte checksum and Base58-encodes the result. -/
def base58CheckEncode (payload : List Nat) : String :=
  base58Encode (payload ++ checksum4 payload)

/-! ### Extended public keys (spec §3, §4.2) -/

/-- The network recorded in the version tag of a parsed extended key. -/
inductive Network where
  | mainnet
  | testnet
deriving Repr, DecidableEq

/-- Version tag of a mainnet extended public key (`xpub`). -/
def mainnetVersion : List Nat := [0x04, 0x88, 0xB2, 0x1E]

/-- Version tag of a testnet extended public key (`tpub`). -/
def testnetVersion : List Nat := [0x04, 0x35, 0x87, 0xCF]

/-- An extended public key: the typed fields of the 78-byte payload
(spec §3). -/
structure ExtendedPubKey where
  network : Network
  depth : Nat
  parentFingerprint : List Nat
  childNumber : Nat
  chainCode : List Nat
  publicKey : List Nat
deriving Repr, DecidableEq

/-- The version tag bytes of a network. -/
def versionBytes : Network → List Nat
  | .mainnet => mainnetVersion
  | .testnet => testnetVersion

/-- The 78-byte serialization of an extended public key (spec §4.2 layout).
-/
def serXpub (k : ExtendedPubKey) : List Nat :=
  versionBytes k.network ++ [k.depth % 256] ++ k.parentFingerprint
    ++ natToBytesBE 4 k.childNumber ++ k.chainCode ++ k.publicKey

/-- Modelled from the spec: `ExtendedPubKey::decode` of the external
`bitcoin` crate, per spec §4.2 — requires a 78-byte payload
(`InvalidLength` otherwise), a recognized version tag
(`UnsupportedKeyVersion`), and a valid compressed curve point
(`InvalidPublicKey`); extracts the fields at the documented offsets. -/
def xpubDecode (payload : List Nat) : Except Err ExtendedPubKey :=
  if payload.length ≠ 78 then .error .invalidLength
  else
    let version := payload.take 4
    let net : Option Network :=
      if version = mainnetVersion then some .mainnet
      else if version = testnetVersion then some .testnet
      else none
    match net with
    | none => .error .unsupportedKeyVersion
    | some network =>
      let pk := (payload.drop 45).take 33
      match decompress pk with
      | none => .error .invalidPublicKey
      | some _ =>
        .ok { network := network,
              depth := payload.getD 4 0,
              parentFingerprint := (payload.drop 5).take 4,
              childNumber := bytesToNatBE ((payload.drop 9).take 4),
              chainCode := (payload.drop 13).take 32,
              publicKey := pk }

/-- `decode_xpub` (src/main.rs:38-43): Base58Check-decode the xpub string. -/
def decodeXpub (s : String) : Except Err (List Nat) := decodeBase58Check s

/-! ### Child key derivation (spec §4.3) -/

/-- Big-endian 4-byte encoding of a child index with the top bit forced to
zero (`ser32` of spec §4.3). -/
def ser32 (i : Nat) : List Nat := natToBytesBE 4 (i % 2 ^ 31)

/-- Modelled from the spec: non-hardened child public-key derivation CKDpub
(spec §4.3) — rejects hardened indices, tweaks by
`HMAC-SHA512(chain_code, serP(pk) ‖ ser32(i))`, and adds the tweak point to
the parent point. -/
def ckdPub (parent : ExtendedPubKey) (i : Nat) : Except Err ExtendedPubKey :=
  if 2 ^ 31 ≤ i then .error .hardenedDerivationUnsupported
  else
    let I := hmacSha512 parent.chainCode (parent.publicKey ++ ser32 i)
    let IL := bytesToNatBE (I.take 32)
    if secpN ≤ IL then .error .invalidTweak
    else
      match decompress parent.publicKey with
      | none => .error .invalidPublicKey
      | some P =>
        match toAffine (jAddAffine (scalarMulG IL) P.1 P.2) with
        | none => .error .pointAtInfinity
        | some C =>
          .ok { network := parent.network,
                depth := (parent.depth + 1) % 256,
                parentFingerprint := (hash160 parent.publicKey).take 4,
                childNumber := i % 2 ^ 31,
                chainCode := I.drop 32,
                publicKey := serPoint C }

/-! ### Path parsing and resolution (spec §4.4) -/

/-- Parse a list of decimal digit characters, most significant first,
extending the accumulator `acc`; `none` on a non-digit. -/
def parseDecAux : List Char → Nat → Option Nat
  | [], acc => some acc
  | c :: t, acc => if c.isDigit then parseDecAux t (acc * 10 + (c.toNat - 48)) else none

/-- Parse a nonempty run of decimal digits as a segment body. -/
def parseSegBody (cs : List Char) : Option Nat :=
  if cs = [] then none else parseDecAux cs 0

/-- Modelled from the spec: one path segment (spec §4.4) — a decimal
integer, optionally suffixed `'` or `h` for a hardened index (value plus
`2^31`); `none` on anything else. -/
def parseSegment (cs : List Char) : Option Nat :=
  if cs.getLast? = some '\'' ∨ cs.getLast? = some 'h' then
    (parseSegBody cs.dropLast).map (fun v => v + 2 ^ 31)
  else parseSegBody cs

/-- Split a character list on `/`. -/
def splitSlashAux : List Char → List Char → List (List Char)
  | [], cur => [cur.reverse]
  | c :: t, cur => if c = '/' then cur.reverse :: splitSlashAux t [] else splitSlashAux t (c :: cur)

/-- Modelled from the spec: parse a derivation path (spec §4.4) — `m`
optionally followed by `/`-separated segments; `none` (`MalformedPath`) on
a malformed segment. -/
def parsePath (s : String) : Option (List Nat) :=
  match splitSlashAux s.toList [] with
  | [] => none
  | m :: rest => if m = ['m'] then rest.mapM parseSegment else none

/-- Decimal digit characters of `n`, most significant first, prefixed onto
`acc`; fuelled (any fuel above the digit count gives all digits). -/
def decReprAux : Nat → Nat → List Char → List Char
  | 0, _, acc => acc
  | f+1, n, acc =>
    let acc' := Char.ofNat (48 + n % 10) :: acc
    if n / 10 = 0 then acc' else decReprAux f (n / 10) acc'

/-- Decimal representation of a natural number (the rendering of
`format!` in `build_derivation_path`). -/
def decRepr (n : Nat) : String := ⟨decReprAux (n + 1) n []⟩

/-- `build_derivation_path` (src/main.rs:68-71): parse `m/0/{index}`;
`none` models the `expect` panic on a parse failure. -/
def buildDerivationPath (index : Nat) : Option (List Nat) :=
  parsePath ("m/0/" ++ decRepr index)

/-- Fold CKDpub left-to-right over parsed segments (spec §4.4; the
`derive_pub` of the external `bitcoin` crate, modelled from the spec). -/
def resolveIdxs (root : ExtendedPubKey) : List Nat → Except Err ExtendedPubKey
  | [] => .ok root
  | i :: rest =>
    match ckdPub root i with
    | .error e => .error e
    | .ok k => resolveIdxs k rest

/-- Modelled from the spec: `resolve` (spec §4.4) — parse the path text and
fold CKDpub from the root. -/
def resolve (root : ExtendedPubKey) (pathText : String) : Except Err ExtendedPubKey :=
  match parsePath pathText with
  | none => .error .malformedPath
  | some idxs => resolveIdxs root idxs

/-! ### Address encoding (spec §4.5) and the derivation pipeline
(src/main.rs:45-66) -/

/-- Network version byte of a P2PKH address: `0x00` mainnet, `0x6f`
testnet. -/
def versionByte : Network → Nat
  | .mainnet => 0x00
  | .testnet => 0x6f

/-- Modelled from the spec: P2PKH address encoding (spec §4.5) —
Base58Check of the version byte followed by `hash160` of the compressed
public key. -/
def p2pkhAddress (pk : List Nat) (net : Network) : String :=
  base58CheckEncode (versionByte net :: hash160 pk)

/-- The network the source passes to `Address::p2pkh`: the hardcoded
`Network::Testnet` literal (src/main.rs:61). -/
def addressNetwork : Network := Network.testnet

/-- One iteration of the `derive_addresses` loop (src/main.rs:55-62):
build the path `m/0/i`, derive the child, and encode its address. -/
def addressStep (root : ExtendedPubKey) (i : Nat) : Except Err String :=
  match buildDerivationPath i with
  | none => .error .panicInvalidDerivationPath
  | some idxs =>
    match resolveIdxs root idxs with
    | .error e => .error e
    | .ok child => .ok (p2pkhAddress child.publicKey addressNetwork)

/-- The `derive_addresses` loop over the requested indices
(src/main.rs:53-65): the first failing step aborts the run. -/
def deriveLoop (root : ExtendedPubKey) : List Nat → Except Err (List String)
  | [] => .ok []
  | i :: rest =>
    match addressStep root i with
    | .error e => .error e
    | .ok a =>
      match deriveLoop root rest with
      | .error e => .error e
      | .ok as => .ok (a :: as)

/-- `derive_addresses` (src/main.rs:45-66): decode the xpub string, parse
the 78-byte payload, and derive one address per index `0 ≤ i < count`. -/
def deriveAddresses (xpub : String) (count : Nat) : Except Err (List String) :=
  match decodeXpub xpub with
  | .error e => .error e
  | .ok payload =>
    match xpubDecode payload with
    | .error e => .error e
    | .ok root => deriveLoop root (List.range count)

/-- The success value of an `Except` result, if any. -/
def exceptOk : Except Err α → Option α
  | .ok a => some a
  | .error _ => none

/-- Append the decimal digits of `n` to the accumulator `a` (the value a
decimal parse reaches after reading the digits of `n` with `a` already
accumulated); fuelled like `decReprAux`. -/
def appDecAux : Nat → Nat → Nat → Nat
  | 0, a, _ => a
  | f+1, a, n => if n / 10 = 0 then a * 10 + n else appDecAux f a (n / 10) * 10 + n % 10

/-- The xpub string of the repository's `test_derive_addresses` test vector
(src/main.rs:105, 116). -/
def tvStr : String := "xpub661MyMwAqRbcFxWNRRv6HoGmRuFZ2a43FAPX1YHgSoXQQFF4MumH9Sx5ecxa9GZcEqBeRBxHLXa5xnupTg6FpjoowHmg69vKwZYjt5mx5zt"

/-- The raw Base58 bytes of `tvStr`: 78 payload bytes and 4 trailing
bytes that do not match the payload's double-SHA-256 checksum. -/
def tvRaw : List Nat := [0x04, 0x88, 0xb2, 0x1e, 0x00, 0x00, 0x00, 0x00, 0x00, 0x00, 0x00, 0x00, 0x00, 0x8e, 0x21, 0x4b,
  0x8e, 0x71, 0x73, 0xbf, 0x3e, 0xc9, 0x5b, 0xf9, 0x54, 0x50, 0x5a, 0x57, 0xa7, 0xbd, 0x90, 0xc4,
  0x5e, 0xd2, 0x04, 0xaf, 0x18, 0xfb, 0x4d, 0x0f, 0xcd, 0xd1, 0xf8, 0x04, 0xd3, 0x07, 0xf1, 0x6d,
  0x9e, 0x37, 0xd2, 0xc7, 0x1b, 0x91, 0x98, 0x6f, 0x20, 0xd2, 0xd8, 0x8e, 0x34, 0x0c, 0x21, 0x84,
  0xc5, 0x81, 0x7d, 0xb0, 0xea, 0x0c, 0x40, 0xeb, 0x5a, 0x4e, 0xdc, 0x16, 0x79, 0xda, 0x37, 0xaa,
  0x64, 0x45]

/-- A well-formed mainnet xpub string (the BIP32 test-vector-1 master
public key), used as a concrete valid input. -/
def tv1Str : String := "xpub661MyMwAqRbcFtXgS5sYJABqqG9YLmC4Q1Rdap9gSE8NqtwybGhePY2gZ29ESFjqJoCu1Rupje8YtGqsefD265TMg7usUDFdp6W1EGMcet8"

/-- The raw Base58 bytes of `tv1Str` (78-byte payload plus valid 4-byte
checksum). -/
def tv1Raw : List Nat := [0x04, 0x88, 0xb2, 0x1e, 0x00, 0x00, 0x00, 0x00, 0x00, 0x00, 0x00, 0x00, 0x00, 0x87, 0x3d, 0xff,
  0x81, 0xc0, 0x2f, 0x52, 0x56, 0x23, 0xfd, 0x1f, 0xe5, 0x16, 0x7e, 0xac, 0x3a, 0x55, 0xa0, 0x49,
  0xde, 0x3d, 0x31, 0x4b, 0xb4, 0x2e, 0xe2, 0x27, 0xff, 0xed, 0x37, 0xd5, 0x08, 0x03, 0x39, 0xa3,
  0x60, 0x13, 0x30, 0x15, 0x97, 0xda, 0xef, 0x41, 0xfb, 0xe5, 0x93, 0xa0, 0x2c, 0xc5, 0x13, 0xd0,
  0xb5, 0x55, 0x27, 0xec, 0x2d, 0xf1, 0x05, 0x0e, 0x2e, 0x8f, 0xf4, 0x9c, 0x85, 0xc2, 0xab, 0x47,
  0x3b, 0x21]

/-- The 78-byte extended-key payload of `tv1Str`. -/
def tv1Payload : List Nat := tv1Raw.take 78

/-- The parsed extended public key of `tv1Str`: a mainnet root key. -/
def tv1Key : ExtendedPubKey :=
  { network := .mainnet,
    depth := 0,
    parentFingerprint := [0, 0, 0, 0],
    childNumber := 0,
    chainCode := [0x87, 0x3d, 0xff, 0x81, 0xc0, 0x2f, 0x52, 0x56, 0x23, 0xfd, 0x1f, 0xe5, 0x16, 0x7e, 0xac, 0x3a,
      0x55, 0xa0, 0x49, 0xde, 0x3d, 0x31, 0x4b, 0xb4, 0x2e, 0xe2, 0x27, 0xff, 0xed, 0x37, 0xd5, 0x08],
    publicKey := [0x03, 0x39, 0xa3, 0x60, 0x13, 0x30, 0x15, 0x97, 0xda, 0xef, 0x41, 0xfb, 0xe5, 0x93, 0xa0, 0x2c,
      0xc5, 0x13, 0xd0, 0xb5, 0x55, 0x27, 0xec, 0x2d, 0xf1, 0x05, 0x0e, 0x2e, 0x8f, 0xf4, 0x9c, 0x85,
      0xc2] }

/-! ### Helper lemmas about the derivation loop -/

lemma deriveLoop_ok_length (root : ExtendedPubKey) :
    ∀ idxs l, deriveLoop root idxs = .ok l → l.length = idxs.length := by
  intro idxs
  induction idxs with
  | nil =>
    intro l h
    simp only [deriveLoop] at h
    injection h with h
    simp [← h]
  | cons i rest ih =>
    intro l h
    simp only [deriveLoop] at h
    cases ha : addressStep root i <;> rw [ha] at h
    · cases h
    · cases hl : deriveLoop root rest <;> rw [hl] at h
      · cases h
      · injection h with h
        subst h
        simp [ih _ hl]

lemma deriveLoop_ok_getElem (root : ExtendedPubKey) :
    ∀ idxs l, deriveLoop root idxs = .ok l →
      ∀ j : Nat, l[j]? = (idxs[j]?).bind (fun i => exceptOk (addressStep root i)) := by
  intro idxs
  induction idxs with
  | nil =>
    intro l h j
    simp only [deriveLoop] at h
    injection h with h
    simp [← h]
  | cons i rest ih =>
    intro l h j
    simp only [deriveLoop] at h
    cases ha : addressStep root i <;> rw [ha] at h
    · cases h
    · cases hl : deriveLoop root rest <;> rw [hl] at h
      · cases h
      · injection h with h
        subst h
        cases j with
        | zero => simp [ha, exceptOk]
        | succ j' => simp [ih _ hl j']

/-! ### Claim theorems -/

/-- C4: on success, `derive_addresses` returns exactly `n` addresses, the
`i`-th being the address derived at path `m/0/i`, in ascending index
order. -/
theorem claim_c4_ordered_addresses : ∀ (s : String) (n : Nat),
    match decodeXpub s with
    | .error _ => True
    | .ok payload =>
      match xpubDecode payload with
      | .error _ => True
      | .ok root =>
        match deriveAddresses s n with
        | .error _ => True
        | .ok l =>
          l.length = n ∧
            ∀ i : Nat, l[i]? = if i < n then exceptOk (addressStep root i) else none := by
  intro s n
  split
  · trivial
  · rename_i payload h1
    split
    · trivial
    · rename_i root h2
      split
      · trivial
      · rename_i l h3
        simp only [deriveAddresses, h1, h2] at h3
        refine ⟨(deriveLoop_ok_length root _ _ h3).trans (List.length_range n), ?_⟩
        intro i
        rw [deriveLoop_ok_getElem root _ _ h3 i]
        by_cases hi : i < n
        · simp [List.getElem?_range hi, hi]
        · rw [List.getElem?_eq_none (by simpa using Nat.le_of_not_lt hi)]
          simp [hi]

/-- C5: for a decodable and parsable xpub string, requesting zero addresses
succeeds with the empty list. -/
theorem claim_c5_zero_count_empty :
    ∀ (s : String) (payload : List Nat) (root : ExtendedPubKey),
      decodeXpub s = .ok payload → xpubDecode payload = .ok root →
      deriveAddresses s 0 = .ok [] := by
  intro s payload root h1 h2
  simp [deriveAddresses, h1, h2, deriveLoop]

/-- C6: the result of `derive_addresses` is all `n` addresses or a single
error, never a partial list; inside the loop the first failing step aborts
with that error. -/
theorem claim_c6_fail_fast_no_partial : ∀ (s : String) (n : Nat),
    (match deriveAddresses s n with
      | .ok l => l.length = n
      | .error _ => True) ∧
    ∀ (root : ExtendedPubKey) (i : Nat) (rest : List Nat),
      match addressStep root i with
      | .error e => deriveLoop root (i :: rest) = .error e
      | .ok _ => True := by
  intro s n
  constructor
  · cases h3 : deriveAddresses s n with
    | error e => trivial
    | ok l =>
      cases h1 : decodeXpub s <;> simp only [deriveAddresses, h1] at h3
      · cases h3
      · cases h2 : xpubDecode _ <;> rw [h2] at h3
        · cases h3
        · exact (deriveLoop_ok_length _ _ _ h3).trans (List.length_range n)
  · intro root i rest
    cases ha : addressStep root i with
    | error e => simp [deriveLoop, ha]
    | ok a => trivial

/-- C7: child derivation and the whole pipeline are deterministic — two
runs on the same inputs give byte-identical keys and identical addresses. -/
theorem claim_c7_deterministic : ∀ (parent : ExtendedPubKey) (i : Nat),
    ckdPub parent i = ckdPub parent i ∧
    (match ckdPub parent i, ckdPub parent i with
      | .ok k1, .ok k2 =>
          serXpub k1 = serXpub k2 ∧
          p2pkhAddress k1.publicKey addressNetwork = p2pkhAddress k2.publicKey addressNetwork
      | _, _ => True) ∧
    ∀ (s : String) (n : Nat), deriveAddresses s n = deriveAddresses s n := by
  intro parent i
  refine ⟨rfl, ?_, fun _ _ => rfl⟩
  cases ckdPub parent i <;> simp

/-- C8: resolving `m/0/3` is the left-to-right fold of single-step child
derivation: child 3 of child 0 of the root. -/
theorem claim_c8_resolve_is_fold : ∀ root : ExtendedPubKey,
    resolve root "m/0/3" =
      match ckdPub root 0 with
      | .error e => .error e
      | .ok k => ckdPub k 3 := by
  intro root
  have hp : parsePath "m/0/3" = some [0, 3] := by decide
  simp only [resolve, hp]
  cases h0 : ckdPub root 0 with
  | error e => simp [resolveIdxs, h0]
  | ok k =>
    simp only [resolveIdxs, h0]
    cases h3 : ckdPub k 3 <;> simp [resolveIdxs, h3]

lemma addressStep_ok_shape (root : ExtendedPubKey) (i : Nat) (a : String)
    (h : addressStep root i = .ok a) : ∃ pk, a = p2pkhAddress pk addressNetwork := by
  unfold addressStep at h
  split at h
  · cases h
  · split at h
    · cases h
    · injection h with h
      exact ⟨_, h.symm⟩

/-- C3 (amended): the address encoder always uses the hardcoded testnet
network, regardless of the network tag recorded at parse time. -/
theorem claim_c3_network_hardcoded : addressNetwork = Network.testnet ∧
    ∀ (root : ExtendedPubKey) (i : Nat),
      match addressStep root i with
      | .ok a => ∃ pk, a = p2pkhAddress pk Network.testnet
      | .error _ => True := by
  refine ⟨rfl, ?_⟩
  intro root i
  split
  · rename_i a heq
    exact addressStep_ok_shape root i a heq
  · trivial

/-! ### Decimal round-trip: `m/0/{i}` always parses -/

lemma digitChar_facts (d : Nat) (hd : d < 10) :
    (Char.ofNat (48 + d)).isDigit = true ∧ (Char.ofNat (48 + d)).toNat = 48 + d ∧
    Char.ofNat (48 + d) ≠ '/' ∧ Char.ofNat (48 + d) ≠ '\'' ∧ Char.ofNat (48 + d) ≠ 'h' := by
  interval_cases d <;> exact ⟨by decide, by decide, by decide, by decide, by decide⟩

lemma parseDecAux_digit_cons (n : Nat) (t : List Char) (a : Nat) :
    parseDecAux (Char.ofNat (48 + n % 10) :: t) a = parseDecAux t (a * 10 + n % 10) := by
  have h := digitChar_facts (n % 10) (Nat.mod_lt _ (by decide))
  simp [parseDecAux, h.1, h.2.1]

lemma appDecAux_zero_acc (f : Nat) : ∀ n : Nat, n < f → appDecAux f 0 n = n := by
  induction f with
  | zero => intro n h; omega
  | succ f ih =>
    intro n h
    unfold appDecAux
    by_cases h0 : n / 10 = 0
    · simp [h0]
    · have hpos : 0 < n := by
        rcases Nat.eq_zero_or_pos n with h' | h'
        · subst h'; simp at h0
        · exact h'
      have hlt : n / 10 < f := by
        have := Nat.div_lt_self hpos (by decide : 1 < 10)
        omega
      simp only [h0, if_false]
      rw [ih _ hlt]
      omega

lemma parse_decReprAux (f : Nat) : ∀ (n : Nat) (acc : List Char) (a : Nat), n < f →
    parseDecAux (decReprAux f n acc) a = parseDecAux acc (appDecAux f a n) := by
  induction f with
  | zero => intro n _ _ h; omega
  | succ f ih =>
    intro n acc a h
    unfold decReprAux appDecAux
    by_cases h0 : n / 10 = 0
    · have hn : n % 10 = n := Nat.mod_eq_of_lt (by omega)
      simp only [h0, if_true, reduceIte]
      rw [parseDecAux_digit_cons, hn]
    · have hpos : 0 < n := by
        rcases Nat.eq_zero_or_pos n with h' | h'
        · subst h'; simp at h0
        · exact h'
      have hlt : n / 10 < f := by
        have := Nat.div_lt_self hpos (by decide : 1 < 10)
        omega
      simp only [h0, if_false]
      rw [ih _ _ _ hlt, parseDecAux_digit_cons]

lemma decReprAux_ne_nil : ∀ (f n : Nat) (acc : List Char), acc ≠ [] → decReprAux f n acc ≠ [] := by
  intro f
  induction f with
  | zero => intro n acc h; exact h
  | succ f ih =>
    intro n acc h
    unfold decReprAux
    by_cases h0 : n / 10 = 0
    · simp [h0]
    · simp only [h0, if_false]
      exact ih _ _ (by simp)

lemma decReprAux_digits : ∀ (f n : Nat) (acc : List Char),
    (∀ c ∈ acc, ∃ d, d < 10 ∧ c = Char.ofNat (48 + d)) →
    ∀ c ∈ decReprAux f n acc, ∃ d, d < 10 ∧ c = Char.ofNat (48 + d) := by
  intro f
  induction f with
  | zero => intro n acc h; exact h
  | succ f ih =>
    intro n acc h
    have h' : ∀ c ∈ Char.ofNat (48 + n % 10) :: acc, ∃ d, d < 10 ∧ c = Char.ofNat (48 + d) := by
      intro c hc
      rcases List.mem_cons.mp hc with h'' | h''
      · exact ⟨n % 10, Nat.mod_lt _ (by decide), h''⟩
      · exact h c h''
    unfold decReprAux
    by_cases h0 : n / 10 = 0
    · simp only [h0, reduceIte]
      exact h'
    · simp only [h0, if_false]
      exact ih _ _ h'

lemma parseSegment_decRepr (n : Nat) : parseSegment (decReprAux (n + 1) n []) = some n := by
  have hdig := decReprAux_digits (n + 1) n [] (by simp)
  have hne : decReprAux (n + 1) n [] ≠ [] := by
    unfold decReprAux
    by_cases h0 : n / 10 = 0
    · simp [h0]
    · simp only [h0, if_false]
      exact decReprAux_ne_nil _ _ _ (by simp)
  have hnothard : ¬((decReprAux (n + 1) n []).getLast? = some '\''
      ∨ (decReprAux (n + 1) n []).getLast? = some 'h') := by
    intro hor
    have hmem : ∀ c : Char, (decReprAux (n + 1) n []).getLast? = some c →
        c ∈ decReprAux (n + 1) n [] := by
      intro c hc
      exact List.mem_of_mem_getLast? (Option.mem_def.mpr hc)
    rcases hor with h' | h' <;>
      rcases hdig _ (hmem _ h') with ⟨d, hd, hc⟩ <;>
      exact absurd hc.symm (by
        have hfacts := digitChar_facts d hd
        first
        | exact hfacts.2.2.2.1
        | exact hfacts.2.2.2.2)
  rw [parseSegment, if_neg hnothard, parseSegBody, if_neg hne,
    parse_decReprAux (n + 1) n [] 0 (Nat.lt_succ_self n)]
  simp [parseDecAux, appDecAux_zero_acc (n + 1) n (Nat.lt_succ_self n)]

lemma splitSlashAux_no_slash : ∀ (cs cur : List Char), (∀ c ∈ cs, c ≠ '/') →
    splitSlashAux cs cur = [cur.reverse ++ cs] := by
  intro cs
  induction cs with
  | nil => intro cur _; simp [splitSlashAux]
  | cons c t ih =>
    intro cur h
    have hc : c ≠ '/' := h c (by simp)
    rw [splitSlashAux, if_neg hc, ih (c :: cur) (fun x hx => h x (by simp [hx]))]
    simp

/-- C10 (amended): for every index, `m/0/{i}` parses to the two-component
path `[0, i]`, so the panic branch of `build_derivation_path` is
unreachable (the components are non-hardened only for `i` below `2^31`;
see the counterexample at `2^31`). -/
theorem claim_c10_path_always_parses : ∀ index : Nat,
    buildDerivationPath index = some [0, index] := by
  intro n
  have hdig := decReprAux_digits (n + 1) n [] (by simp)
  have hnoslash : ∀ c ∈ decReprAux (n + 1) n [], c ≠ '/' := by
    intro c hc
    rcases hdig c hc with ⟨d, hd, hceq⟩
    subst hceq
    exact (digitChar_facts d hd).2.2.1
  have hlist : ("m/0/" ++ decRepr n).toList = 'm' :: '/' :: '0' :: '/' :: decReprAux (n + 1) n [] := by
    show ("m/0/" ++ decRepr n).data = _
    rw [String.data_append]
    rfl
  rw [buildDerivationPath, parsePath, hlist]
  rw [show splitSlashAux ('m' :: '/' :: '0' :: '/' :: decReprAux (n + 1) n []) []
      = ['m'] :: ['0'] :: splitSlashAux (decReprAux (n + 1) n []) [] from by
    rw [splitSlashAux, if_neg (by decide), splitSlashAux, if_pos rfl,
      splitSlashAux, if_neg (by decide), splitSlashAux, if_pos rfl]
    rfl]
  rw [splitSlashAux_no_slash _ [] hnoslash]
  simp only [List.nil_append, List.reverse_nil, if_pos rfl, reduceIte]
  rw [List.mapM_cons, List.mapM_cons, List.mapM_nil]
  simp [parseSegment_decRepr n, show parseSegment ['0'] = some 0 from by decide]

/-- C10 counterexample: at index `2^31` the built path parses, but its
second component is a hardened index (not below `2^31`), so the path is
not made of two non-hardened components. -/
theorem claim_c10_cex_hardened_component :
    buildDerivationPath 2147483648 = some [0, 2147483648] ∧ 2 ^ 31 ≤ 2147483648 := by
  constructor
  · decide
  · decide

/-! ### Checksum and length claims -/

/-- C1: the decode stage validates the last 4 decoded bytes as the checksum
(first 4 bytes of the double SHA-256 of the preceding bytes), fails with
`ChecksumMismatch` when they differ, and on success returns the payload
without the trailing 4 bytes. -/
theorem claim_c1_checksum_validation :
    ∀ (s : String) (raw : List Nat), base58Raw s = .ok raw →
      (checksum4 (raw.take (raw.length - 4)) = raw.drop (raw.length - 4) →
        decodeXpub s = .ok (raw.take (raw.length - 4))) ∧
      (checksum4 (raw.take (raw.length - 4)) ≠ raw.drop (raw.length - 4) →
        decodeXpub s = .error .checksumMismatch) := by
  intro s raw h
  have hd : decodeXpub s =
      (if checksum4 (raw.take (raw.length - 4)) = raw.drop (raw.length - 4)
        then Except.ok (raw.take (raw.length - 4))
        else Except.error Err.checksumMismatch) := by
    simp only [decodeXpub, decodeBase58Check, h]
  constructor
  · intro hc; rw [hd, if_pos hc]
  · intro hc; rw [hd, if_neg hc]

theorem claim_c1_witness : base58Raw tv1Str = .ok tv1Raw ∧
    decodeXpub tv1Str = .ok (tv1Raw.take (tv1Raw.length - 4)) ∧
    decodeXpub tvStr = .error .checksumMismatch := by
  have h : base58Raw tv1Str = .ok tv1Raw := by rfl
  have h' : base58Raw tvStr = .ok tvRaw := by rfl
  exact ⟨h, (claim_c1_checksum_validation tv1Str tv1Raw h).1 (by decide),
    (claim_c1_checksum_validation tvStr tvRaw h').2 (by decide)⟩

lemma xpubDecode_length_ne (p : List Nat) (h : p.length ≠ 78) :
    xpubDecode p = .error .invalidLength := by
  unfold xpubDecode
  rw [if_pos h]

/-- C2: the extended-key parser succeeds only on 78-byte payloads, failing
with `InvalidLength` otherwise, and the payload the pipeline hands to the
parser has length 78 whenever the run gets past parsing. -/
theorem claim_c2_payload_length :
    ∀ payload : List Nat,
      (payload.length ≠ 78 → xpubDecode payload = .error .invalidLength) ∧
      (∀ k, xpubDecode payload = .ok k → payload.length = 78) ∧
      (∀ (s : String) (n : Nat) (l : List String), deriveAddresses s n = .ok l →
        ∃ (p : List Nat) (root : ExtendedPubKey),
          decodeXpub s = .ok p ∧ p.length = 78 ∧ xpubDecode p = .ok root) := by
  intro payload
  refine ⟨xpubDecode_length_ne payload, ?_, ?_⟩
  · intro k hk
    by_contra h
    rw [xpubDecode_length_ne payload h] at hk
    cases hk
  · intro s n l h
    unfold deriveAddresses at h
    split at h
    · cases h
    · rename_i p hp
      split at h
      · cases h
      · rename_i root hroot
        refine ⟨p, root, hp, ?_, hroot⟩
        by_contra hlen
        rw [xpubDecode_length_ne p hlen] at hroot
        cases hroot

theorem claim_c2_witness :
    xpubDecode [] = .error .invalidLength ∧
    ∃ (p : List Nat) (root : ExtendedPubKey),
      decodeXpub tv1Str = .ok p ∧ p.length = 78 ∧ xpubDecode p = .ok root :=
  ⟨(claim_c2_payload_length []).1 (by decide),
   (claim_c2_payload_length []).2.2 tv1Str 0 [] (by rfl)⟩

theorem claim_c5_witness : deriveAddresses tv1Str 0 = .ok [] :=
  claim_c5_zero_count_empty tv1Str tv1Payload tv1Key (by rfl) (by rfl)

/-- C3 counterexample: the repository's pipeline parses a mainnet-tagged
root key, yet the network the encoder uses is the hardcoded testnet one —
the version byte does not follow the parsed tag. -/
theorem claim_c3_cex_mainnet_key_testnet_byte :
    decodeXpub tv1Str = .ok tv1Payload ∧ xpubDecode tv1Payload = .ok tv1Key ∧
    tv1Key.network = Network.mainnet ∧ addressNetwork = Network.testnet ∧
    versionByte tv1Key.network = 0x00 ∧ versionByte addressNetwork = 0x6f :=
  ⟨by rfl, by rfl, rfl, rfl, rfl, rfl⟩

/-- C9 counterexample: on the repository's test-vector xpub string with
count 5, derivation does not succeed. -/
theorem claim_c9_cex_test_vector_fails : (deriveAddresses tvStr 5).isOk = false := by
  rfl

/-- C9 (amended): the test-vector xpub string is not valid Base58Check —
its trailing 4 bytes differ from the double-SHA-256 checksum of its 78-byte
payload — so the pipeline rejects it with `ChecksumMismatch` and produces
no addresses. -/
theorem claim_c9_checksum_mismatch :
    deriveAddresses tvStr 5 = .error .checksumMismatch ∧
    base58Raw tvStr = .ok tvRaw ∧
    checksum4 (tvRaw.take 78) = [0xc3, 0xf6, 0x9d, 0x96] ∧
    tvRaw.drop 78 = [0x37, 0xaa, 0x64, 0x45] :=
  ⟨by rfl, by rfl, by rfl, by rfl⟩

end WalletB

